import Mathlib

/-!
Verification of the terminal-capability detection core of `yazi-adapter`
(`src/yazi-adapter/src/emulator.rs`), shallowly embedded over byte lists.

A Rust `&str` is modelled as the list of its UTF-8 bytes (`List Nat`).
All ASCII search patterns used by the code land on character boundaries in
valid UTF-8, so byte-level substring search coincides with `str` substring
search. Fallible Rust functions return `Option`; `Result`-returning and
possibly-panicking code is modelled with explicit result inductives.
-/

namespace Yazi

/-- ASCII digit test on a byte, as in `u8::is_ascii_digit`. -/
def isDigit (c : Nat) : Bool := decide (48 ≤ c ∧ c ≤ 57)

/-- Numeric value of a run of ASCII digit bytes, most significant first. -/
def digitsVal (l : List Nat) : Nat := l.foldl (fun a c => a * 10 + (c - 48)) 0

/-- Embeds `str::parse::<u16>` restricted to the inputs it receives here
(runs produced by `take_while(is_ascii_digit)`, hence sign-free): succeeds
exactly on a nonempty all-digit run whose value fits in 16 bits. -/
def parseU16 (l : List Nat) : Option Nat :=
  if l = [] then none
  else if l.all isDigit then
    if digitsVal l < 65536 then some (digitsVal l) else none
  else none

/-- Embeds `str::split_once(pat)` keeping only the part after the first
occurrence of `pat`; `none` when `pat` does not occur. -/
def splitAfter (pat : List Nat) : List Nat → Option (List Nat)
  | [] => if pat.isEmpty then some [] else none
  | a :: t =>
    if pat.isPrefixOf (a :: t) then some ((a :: t).drop pat.length)
    else splitAfter pat t

/-- Embeds `str::contains(pat)`. -/
def containsSeq (pat l : List Nat) : Bool := (splitAfter pat l).isSome

/-- UTF-8 bytes of the cell-size report marker `"\x1b[6;"`. -/
def pat6 : List Nat := [27, 91, 54, 59]

/-- Embeds `b.get(i).filter(|&&c| c == expected)` from `cell_size`. -/
def expectByte (b : List Nat) (i expected : Nat) : Option Nat :=
  (b[i]?).filter (fun x => x == expected)

/-- Body of `Emulator::cell_size` after `split_once("\x1b[6;")`: take the
digit run for the height, require `;`, take the digit run for the width,
require `t`, and parse both runs as `u16` (the source's `?` chain is the
`Option.bind` chain). -/
def cellSizeSeg (b : List Nat) : Option (Nat × Nat) :=
  let h := b.takeWhile isDigit
  (expectByte b h.length 59).bind (fun _ =>
    let w := (b.drop (h.length + 1)).takeWhile isDigit
    (expectByte b (h.length + 1 + w.length) 116).bind (fun _ =>
      (parseU16 w).bind (fun wn => (parseU16 h).map (fun hn => (wn, hn)))))

/-- Embeds `Emulator::cell_size`. -/
def cell_size (resp : List Nat) : Option (Nat × Nat) :=
  (splitAfter pat6 resp).bind cellSizeSeg

/-- Value of an ASCII hex-digit byte. -/
def hexVal? (c : Nat) : Option Nat :=
  if 48 ≤ c ∧ c ≤ 57 then some (c - 48)
  else if 97 ≤ c ∧ c ≤ 102 then some (c - 87)
  else if 65 ≤ c ∧ c ≤ 70 then some (c - 55)
  else none

/-- Embeds `u8::from_str_radix(s, 16)` on a two-byte slice: an optional
leading `+` is accepted (a leading `-` is an invalid digit for an unsigned
type), otherwise both bytes must be hex digits. -/
def parse2hex (a b : Nat) : Option Nat :=
  if a = 43 then hexVal? b
  else
    match hexVal? a, hexVal? b with
    | some x, some y => some (16 * x + y)
    | _, _ => none

/-- Embeds `str::is_char_boundary` on the UTF-8 byte list of a string:
index 0, the length, or any byte that is not a continuation byte. -/
def isBoundary (s : List Nat) (i : Nat) : Bool :=
  i == 0 ||
    (match s[i]? with
     | none => i == s.length
     | some b => decide (b < 128) || decide (192 ≤ b))

/-- The luma comparison `r*0.2627/256 + g*0.6780/256 + b*0.0593/256 > 0.6`
of `Emulator::light_bg`, cleared of denominators and computed exactly over
the integers (the source computes it in `f32`; no claim depends on the
hairline rounding of that comparison). -/
def lumaLight (r g b : Nat) : Bool := decide (1536000 < r * 2627 + g * 6780 + b * 593)

/-- Outcome of `Emulator::light_bg`: `Err(_)` from the `?` operator on hex
parsing, a panic from slicing `&s[i..j]` off a character boundary, or a
normal `Ok` value. -/
inductive LightResult
  | panic
  | err
  | ok (light : Bool)
  deriving DecidableEq

/-- UTF-8 bytes of the background-report marker `"]11;rgb:"`. -/
def patBg : List Nat := [93, 49, 49, 59, 114, 103, 98, 58]

/-- Embeds `Emulator::light_bg`. The three channel reads `&s[0..2]`,
`&s[5..7]`, `&s[10..12]` are byte slices of a `&str`: each one panics when
its end (or interior start) index is not a character boundary, in the
source order of evaluation. The `debug!` log slice `&s[..14]` is not
modelled (tracing macro arguments only run when that log level is on). -/
def light_bg (resp : List Nat) : LightResult :=
  match splitAfter patBg resp with
  | some s =>
    if 14 ≤ s.length then
      if isBoundary s 2 then
        match parse2hex (s.getD 0 0) (s.getD 1 0) with
        | some r =>
          if isBoundary s 5 && isBoundary s 7 then
            match parse2hex (s.getD 5 0) (s.getD 6 0) with
            | some g =>
              if isBoundary s 10 && isBoundary s 12 then
                match parse2hex (s.getD 10 0) (s.getD 11 0) with
                | some b => LightResult.ok (lumaLight r g b)
                | none => LightResult.err
              else LightResult.panic
            | none => LightResult.err
          else LightResult.panic
        | none => LightResult.err
      else LightResult.panic
    else LightResult.ok false
  | none => LightResult.ok false

/-- One byte-at-a-time read loop: push the byte, test the stop predicate on
the accumulated buffer, and return the buffer when the input (EOF or the
enclosing timeout) runs out. Embeds the shared shape of `read_until_da1`
and `read_until_dsr`, whose error/timeout arms both fall through to
returning the accumulated bytes. -/
def readLoop (stop : List Nat → Bool) : List Nat → List Nat → List Nat
  | acc, [] => acc
  | acc, b :: rest =>
    let acc2 := acc ++ [b]
    if stop acc2 then acc2 else readLoop stop acc2 rest

/-- Embeds `buf.rsplitn(2, |&b| b == 0x1b).next()`: the segment of the
buffer after the last escape byte (the whole buffer when none occurs). -/
def afterLastEsc (l : List Nat) : List Nat :=
  (l.reverse.takeWhile (fun b => b != 27)).reverse

/-- Stop condition of `Emulator::read_until_da1`: the byte just read is
`c`, the buffer holds an escape byte, and the segment after the last
escape byte starts with `[?`. -/
def da1Stop (buf : List Nat) : Bool :=
  buf.getLast? == some 99 && buf.contains 27 &&
    [91, 63].isPrefixOf (afterLastEsc buf)

/-- Embeds `Emulator::read_until_da1` on a stream of available input
bytes; exhausting the stream models EOF or the 2-second timeout. -/
def read_until_da1 (input : List Nat) : List Nat := readLoop da1Stop [] input

/-- UTF-8 bytes of `"\x1b[0n"`. -/
def dsrE0 : List Nat := [27, 91, 48, 110]

/-- UTF-8 bytes of `"\x1b[3n"`. -/
def dsrE3 : List Nat := [27, 91, 51, 110]

/-- Stop condition of `Emulator::read_until_dsr`: the byte just read is
`n` and the buffer ends with `ESC[0n` or `ESC[3n`. -/
def dsrStop (buf : List Nat) : Bool :=
  buf.getLast? == some 110 && (dsrE0.isSuffixOf buf || dsrE3.isSuffixOf buf)

/-- Embeds `Emulator::read_until_dsr` on a stream of available input
bytes; exhausting the stream models EOF or the 500-millisecond timeout. -/
def read_until_dsr (input : List Nat) : List Nat := readLoop dsrStop [] input

/-- The `Unknown` record: pixel-graphics (KGP) and Sixel support flags. -/
structure Unknown where
  kgp : Bool
  sixel : Bool
  deriving DecidableEq

/-- UTF-8 bytes of the KGP acknowledgement `"\x1b_Gi=31;OK"`. -/
def kgpAck : List Nat := [27, 95, 71, 105, 61, 51, 49, 59, 79, 75]

/-- UTF-8 bytes of the Sixel capability markers `"?4;"`, `"?4c"`, `";4;"`,
`";4c"`. -/
def sixelPats : List (List Nat) :=
  [[63, 52, 59], [63, 52, 99], [59, 52, 59], [59, 52, 99]]

/-- The `kind` computation of `Emulator::detect`:
`Brand::from_csi(&resp).or(resort)`, else the `Unknown` record built from
the response. `Brand::from_csi` and `Brand::from_env` live outside this
crate's probed file, so their results are parameters; brands are abstract
identifiers. -/
def kindOf (fromCsi resort : Option Nat) (resp : List Nat) : Nat ⊕ Unknown :=
  match fromCsi.or resort with
  | some b => Sum.inl b
  | none =>
    Sum.inr ⟨containsSeq kgpAck resp, sixelPats.any (fun p => containsSeq p resp)⟩

/-- The capability snapshot `Emulator` (brands abstracted to `Nat`). -/
structure Emulator where
  kind : Nat ⊕ Unknown
  light : Bool
  cell_size : Option (Nat × Nat)
  deriving DecidableEq

/-- Outcome of `Emulator::detect`: an `Err` return, a panic (from
`light_bg`), or an `Ok` snapshot. -/
inductive DRes
  | err
  | panic
  | ok (e : Emulator)
  deriving DecidableEq

/-- Terminal raw-mode events of one `detect` run. -/
inductive Ev
  | rawEnable
  | rawDisable
  deriving DecidableEq

/-- Embeds `Emulator::detect` together with its raw-mode event trace.
`raw`, `write` and `drain` tell whether `enable_raw_mode()`, the probe
`execute!` burst and `Mux::tmux_drain()` succeed (all three are followed
by `?` in the source); `fromEnv` and `fromCsi` stand for the external
`Brand::from_env` / `Brand::from_csi`; `input` is the stdin byte stream.
The `defer! { disable_raw_mode().ok(); }` scope guard is registered before
anything else, so per `scopeguard` semantics every exit path — return,
`?` early return, or unwinding panic — ends with a raw-mode disable
event. -/
def detectFull (raw write drain : Bool) (fromEnv : Option Nat)
    (fromCsi : List Nat → Option Nat) (input : List Nat) : List Ev × DRes :=
  if raw = false then ([Ev.rawDisable], DRes.err)
  else if write = false then ([Ev.rawEnable, Ev.rawDisable], DRes.err)
  else
    let resp := read_until_da1 input
    if drain = false then ([Ev.rawEnable, Ev.rawDisable], DRes.err)
    else
      let kind := kindOf (fromCsi resp) fromEnv resp
      match light_bg resp with
      | LightResult.panic => ([Ev.rawEnable, Ev.rawDisable], DRes.panic)
      | LightResult.err =>
        ([Ev.rawEnable, Ev.rawDisable], DRes.ok ⟨kind, false, cell_size resp⟩)
      | LightResult.ok b =>
        ([Ev.rawEnable, Ev.rawDisable], DRes.ok ⟨kind, b, cell_size resp⟩)

/-- The result part of `Emulator::detect`. -/
def detect (raw write drain : Bool) (fromEnv : Option Nat)
    (fromCsi : List Nat → Option Nat) (input : List Nat) : DRes :=
  (detectFull raw write drain fromEnv fromCsi input).2

/-- A `Brand::from_csi` that recognizes nothing. -/
def csiNone : List Nat → Option Nat := fun _ => none

/-- A `Brand::from_csi` that always recognizes brand `5`. -/
def csiFive : List Nat → Option Nat := fun _ => some 5

/-- Spec-side shape of a well-formed cell-size report segment: the part
after the marker is a nonempty digit run for the height `h`, a `;`, a
nonempty digit run for the width `w`, and a `t`, both values fitting in
16 bits, with arbitrary trailing bytes. -/
def SegShape (seg : List Nat) (w h : Nat) : Prop :=
  ∃ hd wd rest, seg = hd ++ 59 :: (wd ++ 116 :: rest) ∧ hd ≠ [] ∧ wd ≠ [] ∧
    (∀ c ∈ hd, isDigit c = true) ∧ (∀ c ∈ wd, isDigit c = true) ∧
    digitsVal hd = h ∧ digitsVal wd = w ∧ h < 65536 ∧ w < 65536

/-- Spec-side stop condition of `read_until_da1`: the byte just read
(the buffer's last byte) is `c`, and the segment right after the last
escape byte of the buffer begins with `[?`. -/
def Da1Spec (buf : List Nat) : Prop :=
  buf.getLast? = some 99 ∧
    ∃ pre seg, buf = pre ++ 27 :: seg ∧ 27 ∉ seg ∧ [91, 63] <+: seg

/-- Spec-side stop condition of `read_until_dsr`: the buffer ends with
`ESC[0n` or `ESC[3n`. -/
def DsrSpec (buf : List Nat) : Prop := dsrE0 <:+ buf ∨ dsrE3 <:+ buf

/-- A captured response whose lossy decoding is `"]11;rgb:"` followed by
five U+FFFD replacement characters (the decoding of five `0xFF` bytes):
15 bytes follow the marker, and byte offset 2 falls inside the first
replacement character. -/
def c2buf : List Nat :=
  patBg ++ [239, 191, 189, 239, 191, 189, 239, 191, 189, 239, 191, 189, 239, 191, 189]

/-- A captured response `"]11;rgb:€€€€€"`: five euro signs (3 UTF-8 bytes
each) follow the marker, and byte offset 2 falls inside the first one. -/
def c10buf : List Nat :=
  patBg ++ [226, 130, 172, 226, 130, 172, 226, 130, 172, 226, 130, 172, 226, 130, 172]

/-- The scenario buffer `"\x1b_Gi=31;OK\x1b\\\x1b[?6c"`. -/
def c6buf : List Nat :=
  [27, 95, 71, 105, 61, 51, 49, 59, 79, 75, 27, 92, 27, 91, 63, 54, 99]

/-! ## Helper lemmas -/

theorem takeWhile_all_append {p : Nat → Bool} {l1 : List Nat}
    (h1 : ∀ c ∈ l1, p c = true) {a : Nat} (ha : p a = false) (l2 : List Nat) :
    (l1 ++ a :: l2).takeWhile p = l1 := by
  induction l1 with
  | nil => simp [List.takeWhile_cons, ha]
  | cons x xs ih =>
    have hx : p x = true := h1 x (List.mem_cons_self x xs)
    have ih2 := ih (fun c hc => h1 c (List.mem_cons_of_mem x hc))
    simp [List.takeWhile_cons, hx, ih2]

theorem takeWhile_drop_eq (p : Nat → Bool) (l : List Nat) :
    l = l.takeWhile p ++ l.drop (l.takeWhile p).length := by
  induction l with
  | nil => rfl
  | cons x xs ih =>
    by_cases hx : p x = true
    · simp only [List.takeWhile_cons, hx, if_true, List.length_cons, List.drop_succ_cons]
      exact congrArg (x :: ·) ih
    · have hx' : p x = false := by simpa using hx
      simp [List.takeWhile_cons, hx']

theorem parseU16_eq_some {l : List Nat} {v : Nat} :
    parseU16 l = some v ↔
      l ≠ [] ∧ (∀ c ∈ l, isDigit c = true) ∧ digitsVal l = v ∧ v < 65536 := by
  unfold parseU16
  split_ifs with h1 h2 h3
  · simp [h1]
  · simp only [Option.some.injEq]
    constructor
    · intro h; exact ⟨h1, List.all_eq_true.mp h2, h, h ▸ h3⟩
    · rintro ⟨-, -, h, -⟩; exact h
  · constructor
    · intro h; cases h
    · rintro ⟨-, -, hv, hlt⟩; exact absurd (hv ▸ hlt) h3
  · constructor
    · intro h; cases h
    · rintro ⟨-, hall, -, -⟩; exact absurd (List.all_eq_true.mpr hall) h2

theorem expectByte_eq_some {b : List Nat} {i c x : Nat} :
    expectByte b i c = some x ↔ b[i]? = some c ∧ x = c := by
  unfold expectByte
  cases h : b[i]? with
  | none => simp [Option.filter]
  | some y =>
    by_cases hy : y = c
    · subst hy
      simp [Option.filter, eq_comm]
    · simp [Option.filter, hy, Ne.symm hy]

theorem cellSizeSeg_eq_some {seg : List Nat} {w h : Nat} :
    cellSizeSeg seg = some (w, h) ↔ SegShape seg w h := by
  constructor
  · intro hc
    unfold cellSizeSeg at hc
    simp only [Option.bind_eq_some, Option.map_eq_some'] at hc
    obtain ⟨x, hx, y, hy, wn, hwn, hn, hhn, hpair⟩ := hc
    obtain ⟨hw, hh⟩ : wn = w ∧ hn = h := by
      have := hpair
      cases this; exact ⟨rfl, rfl⟩
    subst hw; subst hh
    obtain ⟨hget1, -⟩ := expectByte_eq_some.mp hx
    obtain ⟨hget2, -⟩ := expectByte_eq_some.mp hy
    set hd := seg.takeWhile isDigit with hhd
    set rest1 := seg.drop (hd.length + 1) with hrest1
    set wd := rest1.takeWhile isDigit with hwd
    obtain ⟨hne, hdig, hval, hlt⟩ := parseU16_eq_some.mp hhn
    obtain ⟨wne, wdig, wval, wlt⟩ := parseU16_eq_some.mp hwn
    -- decompose seg around the `;`
    have hlen1 : hd.length < seg.length := by
      by_contra hlenc
      rw [List.getElem?_eq_none (Nat.le_of_not_lt hlenc)] at hget1
      cases hget1
    have hsplit1 : seg = hd ++ 59 :: rest1 := by
      have hdrop : seg.drop hd.length = seg[hd.length] :: seg.drop (hd.length + 1) :=
        List.drop_eq_getElem_cons hlen1
      have hbyte : seg[hd.length] = 59 := by
        have := List.getElem?_eq_getElem hlen1
        rw [this] at hget1
        exact Option.some.inj hget1
      calc seg = hd ++ seg.drop hd.length := takeWhile_drop_eq isDigit seg
        _ = hd ++ 59 :: rest1 := by rw [hdrop, hbyte, hrest1]
    -- decompose rest1 around the `t`
    have hget2' : rest1[wd.length]? = some 116 := by
      have hre : seg = (hd ++ [59]) ++ rest1 := by
        rw [hsplit1, List.append_cons]
      have hlen : (hd ++ [59]).length ≤ hd.length + 1 + wd.length := by
        simp only [List.length_append, List.length_cons, List.length_nil]
        omega
      rw [hre, List.getElem?_append_right hlen] at hget2
      have hidx2 : hd.length + 1 + wd.length - (hd ++ [59]).length = wd.length := by
        simp only [List.length_append, List.length_cons, List.length_nil]
        omega
      rw [hidx2] at hget2
      exact hget2
    have hlen2 : wd.length < rest1.length := by
      by_contra hlenc
      rw [List.getElem?_eq_none (Nat.le_of_not_lt hlenc)] at hget2'
      cases hget2'
    have hsplit2 : rest1 = wd ++ 116 :: rest1.drop (wd.length + 1) := by
      have hdrop : rest1.drop wd.length = rest1[wd.length] :: rest1.drop (wd.length + 1) :=
        List.drop_eq_getElem_cons hlen2
      have hbyte : rest1[wd.length] = 116 := by
        have := List.getElem?_eq_getElem hlen2
        rw [this] at hget2'
        exact Option.some.inj hget2'
      calc rest1 = wd ++ rest1.drop wd.length := takeWhile_drop_eq isDigit rest1
        _ = wd ++ 116 :: rest1.drop (wd.length + 1) := by rw [hdrop, hbyte]
    have hseg : seg = hd ++ 59 :: (wd ++ 116 :: rest1.drop (wd.length + 1)) := by
      rw [hsplit1]
      exact congrArg (fun z => hd ++ 59 :: z) hsplit2
    exact ⟨hd, wd, rest1.drop (wd.length + 1),
      hseg, hne, wne, hdig, wdig, hval, wval, hlt, wlt⟩
  · rintro ⟨hd, wd, rest, rfl, hne, wne, hdig, wdig, hval, wval, hlt, wlt⟩
    have hsemi : isDigit 59 = false := by decide
    have ht : isDigit 116 = false := by decide
    have htw : (hd ++ 59 :: (wd ++ 116 :: rest)).takeWhile isDigit = hd :=
      takeWhile_all_append hdig hsemi _
    have h1 : (hd ++ 59 :: (wd ++ 116 :: rest))[hd.length]? = some 59 := by
      rw [List.getElem?_append_right (le_refl _)]
      simp
    have h2 : (hd ++ 59 :: (wd ++ 116 :: rest)).drop (hd.length + 1) = wd ++ 116 :: rest := by
      rw [List.append_cons]
      have hlen59 : (hd ++ [59]).length = hd.length + 1 := by simp
      rw [← hlen59]
      exact List.drop_left _ _
    have htw2 : (wd ++ 116 :: rest).takeWhile isDigit = wd :=
      takeWhile_all_append wdig ht _
    have h3 : (hd ++ 59 :: (wd ++ 116 :: rest))[hd.length + 1 + wd.length]? = some 116 := by
      have hre : hd ++ 59 :: (wd ++ 116 :: rest) = ((hd ++ [59]) ++ wd) ++ 116 :: rest := by
        simp
      have hlen : ((hd ++ [59]) ++ wd).length ≤ hd.length + 1 + wd.length := by
        simp only [List.length_append, List.length_cons, List.length_nil]
        omega
      rw [hre, List.getElem?_append_right hlen]
      have hidx : hd.length + 1 + wd.length - ((hd ++ [59]) ++ wd).length = 0 := by
        simp only [List.length_append, List.length_cons, List.length_nil]
        omega
      rw [hidx]
      simp
    have hpw : parseU16 wd = some w := parseU16_eq_some.mpr ⟨wne, wdig, wval, wlt⟩
    have hph : parseU16 hd = some h := parseU16_eq_some.mpr ⟨hne, hdig, hval, hlt⟩
    unfold cellSizeSeg
    simp only [htw, h2, htw2]
    rw [show expectByte (hd ++ 59 :: (wd ++ 116 :: rest)) hd.length 59 = some 59 from
      expectByte_eq_some.mpr ⟨h1, rfl⟩]
    rw [show expectByte (hd ++ 59 :: (wd ++ 116 :: rest)) (hd.length + 1 + wd.length) 116
        = some 116 from expectByte_eq_some.mpr ⟨h3, rfl⟩]
    simp [hpw, hph]

theorem readLoop_cons (stop : List Nat → Bool) (acc : List Nat) (b : Nat) (rest : List Nat) :
    readLoop stop acc (b :: rest) =
      if stop (acc ++ [b]) then acc ++ [b] else readLoop stop (acc ++ [b]) rest := rfl

theorem readLoop_spec (stop : List Nat → Bool) :
    ∀ (input acc : List Nat), ∃ t,
      readLoop stop acc input = acc ++ t ∧ t <+: input ∧
      (t = input ∨ stop (acc ++ t) = true) ∧
      (∀ n, 0 < n → n < t.length → stop (acc ++ input.take n) = false) := by
  intro input
  induction input with
  | nil =>
    intro acc
    exact ⟨[], by simp [readLoop], List.prefix_rfl, Or.inl rfl, by intro n h1 h2; simp at h2⟩
  | cons b rest ih =>
    intro acc
    by_cases hstop : stop (acc ++ [b]) = true
    · refine ⟨[b], ?_, ⟨rest, rfl⟩, Or.inr hstop, ?_⟩
      · rw [readLoop_cons, if_pos hstop]
      · intro n h1 h2
        simp at h2
        omega
    · obtain ⟨t', heq, hpre, hdisj, hmin⟩ := ih (acc ++ [b])
      have hstop' : stop (acc ++ [b]) = false := Bool.eq_false_iff.mpr hstop
      refine ⟨b :: t', ?_, ?_, ?_, ?_⟩
      · rw [readLoop_cons, if_neg hstop, heq]
        simp
      · obtain ⟨u, hu⟩ := hpre
        exact ⟨u, by rw [List.cons_append, hu]⟩
      · rcases hdisj with h | h
        · exact Or.inl (by rw [h])
        · exact Or.inr (by rw [List.append_cons]; exact h)
      · intro n h1 h2
        match n, h1 with
        | 1, _ =>
          simpa using hstop'
        | Nat.succ (Nat.succ m), _ =>
          have h3 : 0 < m + 1 := Nat.succ_pos m
          have h4 : m + 1 < t'.length := by
            simp only [List.length_cons] at h2
            omega
          have := hmin (m + 1) h3 h4
          rw [List.take_succ_cons, List.append_cons]
          exact this

theorem rev_takeWhile_split (l : List Nat) (h : 27 ∈ l) :
    ∃ s, l = l.takeWhile (fun b => b != 27) ++ 27 :: s := by
  induction l with
  | nil => cases h
  | cons a t ih =>
    by_cases ha : a = 27
    · subst ha
      exact ⟨t, by simp [List.takeWhile_cons]⟩
    · have ha' : (a != 27) = true := by simpa using ha
      have hmem : 27 ∈ t := by
        rcases List.mem_cons.mp h with h1 | h1
        · exact absurd h1.symm ha
        · exact h1
      obtain ⟨s, hs⟩ := ih hmem
      refine ⟨s, ?_⟩
      simp only [List.takeWhile_cons, ha', if_true, List.cons_append]
      exact congrArg (a :: ·) hs

theorem afterLastEsc_decomp (l : List Nat) (h : 27 ∈ l) :
    ∃ pre, l = pre ++ 27 :: afterLastEsc l ∧ 27 ∉ afterLastEsc l := by
  obtain ⟨s, hs⟩ := rev_takeWhile_split l.reverse (List.mem_reverse.mpr h)
  refine ⟨s.reverse, ?_, ?_⟩
  · have h2 := congrArg List.reverse hs
    rw [List.reverse_reverse] at h2
    conv_lhs => rw [h2]
    rw [List.reverse_append, List.reverse_cons, List.append_assoc]
    rfl
  · intro hmem
    have hmem2 : 27 ∈ l.reverse.takeWhile (fun b => b != 27) := by
      unfold afterLastEsc at hmem
      exact List.mem_reverse.mp hmem
    have := List.mem_takeWhile_imp hmem2
    simp at this

theorem afterLastEsc_unique {l pre seg : List Nat}
    (hdec : l = pre ++ 27 :: seg) (hnm : 27 ∉ seg) :
    afterLastEsc l = seg := by
  have hrev : l.reverse = seg.reverse ++ 27 :: pre.reverse := by
    rw [hdec, List.reverse_append]
    simp
  have hall : ∀ c ∈ seg.reverse, (c != 27) = true := by
    intro c hc
    have : c ∈ seg := List.mem_reverse.mp hc
    simp only [bne_iff_ne, ne_eq]
    intro hc27
    exact hnm (hc27 ▸ this)
  have h27 : ((27 : Nat) != 27) = false := by decide
  unfold afterLastEsc
  rw [hrev, takeWhile_all_append hall h27, List.reverse_reverse]

theorem da1Stop_iff (buf : List Nat) : da1Stop buf = true ↔ Da1Spec buf := by
  unfold da1Stop Da1Spec
  simp only [Bool.and_eq_true, beq_iff_eq, List.isPrefixOf_iff_prefix]
  constructor
  · rintro ⟨⟨hlast, hmem⟩, hpre⟩
    have hmem' : 27 ∈ buf := by
      have : List.elem 27 buf = true := hmem
      exact List.elem_iff.mp this
    obtain ⟨pre, hdec, hnm⟩ := afterLastEsc_decomp buf hmem'
    exact ⟨hlast, pre, afterLastEsc buf, hdec, hnm, hpre⟩
  · rintro ⟨hlast, pre, seg, hdec, hnm, hpre⟩
    have hmem : 27 ∈ buf := by
      rw [hdec]
      exact List.mem_append.mpr (Or.inr (List.mem_cons_self _ _))
    refine ⟨⟨hlast, List.elem_iff.mpr hmem⟩, ?_⟩
    rw [afterLastEsc_unique hdec hnm]
    exact hpre

theorem suffix_getLast {l : List Nat} {a : Nat} {buf : List Nat}
    (h : (l ++ [a]) <:+ buf) : buf.getLast? = some a := by
  obtain ⟨t, ht⟩ := h
  rw [← ht, ← List.append_assoc]
  exact List.getLast?_concat _

theorem dsrStop_iff (buf : List Nat) : dsrStop buf = true ↔ DsrSpec buf := by
  unfold dsrStop DsrSpec
  simp only [Bool.and_eq_true, Bool.or_eq_true, beq_iff_eq, List.isSuffixOf_iff_suffix]
  constructor
  · rintro ⟨-, h⟩
    exact h
  · intro h
    refine ⟨?_, h⟩
    rcases h with h | h
    · exact suffix_getLast (l := [27, 91, 48]) h
    · exact suffix_getLast (l := [27, 91, 51]) h

theorem containsSeq_iff_infix (pat l : List Nat) :
    containsSeq pat l = true ↔ pat <:+: l := by
  unfold containsSeq
  induction l with
  | nil =>
    simp only [splitAfter, List.infix_nil]
    by_cases hp : pat = []
    · simp [hp, List.isEmpty]
    · have : pat.isEmpty = false := by
        cases pat with
        | nil => exact absurd rfl hp
        | cons a t => rfl
      simp [this, hp]
  | cons a t ih =>
    simp only [splitAfter]
    by_cases hp : pat.isPrefixOf (a :: t) = true
    · simp only [hp, if_true, Option.isSome_some, true_iff]
      exact (List.isPrefixOf_iff_prefix.mp hp).isInfix
    · have hp' : pat.isPrefixOf (a :: t) = false := Bool.eq_false_iff.mpr hp
      simp only [hp', Bool.false_eq_true, if_false]
      rw [ih, List.infix_cons_iff]
      constructor
      · exact Or.inr
      · rintro (h | h)
        · exact absurd (List.isPrefixOf_iff_prefix.mpr h) hp
        · exact h

/-! ## Claim theorems -/

/-- C1: `cell_size` returns `some (w, h)` — width first, height second —
exactly when the segment after the first occurrence of `"\x1b[6;"` exists
and has the shape nonempty-digit-run (height), `;`, nonempty-digit-run
(width), `t`, with both runs parsing as 16-bit unsigned integers; any
deviation of that segment (missing `;` or `t`, empty run, or a run out of
`u16` range) yields `none`. -/
theorem c1_cell_size_shape :
    ∀ (resp : List Nat) (w h : Nat),
      cell_size resp = some (w, h) ↔
        ∃ seg, splitAfter pat6 resp = some seg ∧ SegShape seg w h := by
  intro resp w h
  unfold cell_size
  cases hs : splitAfter pat6 resp with
  | none => simp
  | some seg =>
    constructor
    · intro hc
      exact ⟨seg, rfl, cellSizeSeg_eq_some.mp hc⟩
    · rintro ⟨seg', hseg', hsh⟩
      have heq : seg' = seg := (Option.some.inj hseg').symm
      subst heq
      exact cellSizeSeg_eq_some.mpr hsh

/-- Witness for C1 at the concrete report `"\x1b[6;2;3t"`: width 3,
height 2. -/
theorem c1_witness : cell_size [27, 91, 54, 59, 50, 59, 51, 116] = some (3, 2) :=
  (c1_cell_size_shape [27, 91, 54, 59, 50, 59, 51, 116] 3 2).mpr
    ⟨[50, 59, 51, 116], by decide,
      ⟨[50], [51], [], rfl, by decide, by decide, by decide, by decide,
        rfl, rfl, by decide, by decide⟩⟩

/-- C2: code-bug evidence — on a captured response whose lossy decoding is
`"]11;rgb:"` followed by five U+FFFD replacement characters, `light_bg`
panics (byte offset 2 is not a character boundary) instead of yielding the
claimed `false`, so the failure does reach the caller of detection. -/
theorem c2_light_bg_panics : light_bg c2buf = LightResult.panic := by decide

/-- C3: the snapshot kind built by `detect` is `kindOf` of the
response-signature brand and the pre-resolved brand, and `kindOf` prefers
the response-signature brand over the pre-resolved one (also when both are
present and differ), then the pre-resolved one. -/
theorem c3_kind_precedence :
    (∀ (raw write drain : Bool) (env : Option Nat) (csi : List Nat → Option Nat)
        (input : List Nat) (e : Emulator),
        detect raw write drain env csi input = DRes.ok e →
          e.kind = kindOf (csi (read_until_da1 input)) env (read_until_da1 input)) ∧
    (∀ (b : Nat) (r : Option Nat) (resp : List Nat), kindOf (some b) r resp = Sum.inl b) ∧
    (∀ (b : Nat) (resp : List Nat), kindOf none (some b) resp = Sum.inl b) := by
  refine ⟨?_, ?_, ?_⟩
  · intro raw write drain env csi input e hok
    obtain ⟨ek, el, ec⟩ := e
    cases raw
    · simp [detect, detectFull] at hok
    · cases write
      · simp [detect, detectFull] at hok
      · cases drain
        · simp [detect, detectFull] at hok
        · cases hl : light_bg (read_until_da1 input) with
          | panic => simp [detect, detectFull, hl] at hok
          | err =>
            simp [detect, detectFull, hl] at hok
            exact hok.1.symm
          | ok b =>
            simp [detect, detectFull, hl] at hok
            exact hok.1.symm
  · intro b r resp
    rfl
  · intro b resp
    rfl

/-- Witness for C3: a pre-resolved brand absent, response brand `5`
recognized, empty input stream. -/
theorem c3_witness :
    (⟨Sum.inl 5, false, none⟩ : Emulator).kind =
      kindOf (csiFive (read_until_da1 [])) none (read_until_da1 []) :=
  c3_kind_precedence.1 true true true none csiFive [] ⟨Sum.inl 5, false, none⟩ (by decide)

/-- C4 counterexample: with raw mode and the probe write both succeeding
but the multiplexer drain (`Mux::tmux_drain()?`) failing, `detect` returns
an error — a fatal step beyond the two the claim allows. -/
theorem c4_counterexample : detect true true false none csiNone [] = DRes.err := by decide

/-- C4 amended: `detect` returns an error exactly when enabling raw mode
fails, writing the probe burst fails, or the multiplexer drain fails; when
all three succeed, no response stream (timeout, EOF, or partial capture)
produces an error return. -/
theorem c4_err_iff :
    ∀ (raw write drain : Bool) (env : Option Nat) (csi : List Nat → Option Nat)
      (input : List Nat),
      detect raw write drain env csi input = DRes.err ↔
        (raw = false ∨ write = false ∨ drain = false) := by
  intro raw write drain env csi input
  cases raw
  · simp [detect, detectFull]
  · cases write
    · simp [detect, detectFull]
    · cases drain
      · simp [detect, detectFull]
      · cases hl : light_bg (read_until_da1 input) <;>
          simp [detect, detectFull, hl]

/-- Witness for C4 (amended) at a failing raw-mode toggle. -/
theorem c4_witness : detect false true true none csiNone [] = DRes.err :=
  (c4_err_iff false true true none csiNone []).mpr (Or.inl rfl)

/-- C5 counterexample: the report `"\x1b[6;0;0t"` parses to `some (0, 0)`:
the cell size is present with zero components, contradicting the claimed
strict positivity. -/
theorem c5_counterexample :
    cell_size [27, 91, 54, 59, 48, 59, 48, 116] = some (0, 0) := by decide

/-- C5 amended: when `cell_size` is present, both components are parsed
16-bit values, hence at most 65535; zero components are possible and are
not replaced by an absent value. -/
theorem c5_bound :
    ∀ (resp : List Nat) (w h : Nat),
      cell_size resp = some (w, h) → w < 65536 ∧ h < 65536 := by
  intro resp w h hc
  unfold cell_size at hc
  cases hs : splitAfter pat6 resp with
  | none => rw [hs] at hc; cases hc
  | some seg =>
    rw [hs] at hc
    obtain ⟨hd, wd, rest, -, -, -, -, -, -, -, hlt, wlt⟩ := cellSizeSeg_eq_some.mp hc
    exact ⟨wlt, hlt⟩

/-- Witness for C5 (amended) at the report `"\x1b[6;1;2t"`. -/
theorem c5_witness : 2 < 65536 ∧ 1 < 65536 :=
  c5_bound [27, 91, 54, 59, 49, 59, 50, 116] 2 1 (by decide)

/-- C6: with no response-signature brand and no pre-resolved brand, the
kind is `Unknown` whose `kgp` flag holds exactly when the buffer contains
`"\x1b_Gi=31;OK"` and whose `sixel` flag holds exactly when it contains
one of `"?4;"`, `"?4c"`, `";4;"`, `";4c"`; and on the scenario buffer
`"\x1b_Gi=31;OK\x1b\\\x1b[?6c"`, `detect` yields
`Unknown { kgp := true, sixel := false }`. -/
theorem c6_unknown_flags :
    (∀ (resp : List Nat) (u : Unknown), kindOf none none resp = Sum.inr u →
      ((u.kgp = true ↔ kgpAck <:+: resp) ∧
       (u.sixel = true ↔
         ([63, 52, 59] <:+: resp ∨ [63, 52, 99] <:+: resp ∨
          [59, 52, 59] <:+: resp ∨ [59, 52, 99] <:+: resp)))) ∧
    detect true true true none csiNone c6buf =
      DRes.ok ⟨Sum.inr ⟨true, false⟩, false, none⟩ := by
  constructor
  · intro resp u hk
    have hu : u = ⟨containsSeq kgpAck resp, sixelPats.any (fun p => containsSeq p resp)⟩ :=
      (Sum.inr.inj hk).symm
    subst hu
    constructor
    · exact containsSeq_iff_infix kgpAck resp
    · show sixelPats.any (fun p => containsSeq p resp) = true ↔ _
      simp only [sixelPats, List.any_cons, List.any_nil, Bool.or_false,
        Bool.or_eq_true, containsSeq_iff_infix]
  · decide

/-- Witness for C6 on the scenario buffer. -/
theorem c6_witness : ((⟨true, false⟩ : Unknown).kgp = true ↔ kgpAck <:+: c6buf) :=
  (c6_unknown_flags.1 c6buf ⟨true, false⟩ (by decide)).1

/-- C7: `read_until_da1` always returns (a prefix of the available input,
never an error): it stops exactly at the first accumulated prefix whose
last byte is `c` and whose segment after the last escape byte begins with
`[?`, and returns everything accumulated when no such prefix arrives
(timeout, I/O failure, EOF). -/
theorem c7_read_until_da1_stops :
    ∀ input : List Nat,
      read_until_da1 input <+: input ∧
      (read_until_da1 input = input ∨ Da1Spec (read_until_da1 input)) ∧
      (∀ n, n < (read_until_da1 input).length → ¬ Da1Spec (input.take n)) := by
  intro input
  obtain ⟨t, heq, hpre, hdisj, hmin⟩ := readLoop_spec da1Stop input []
  have ht : read_until_da1 input = t := by
    rw [read_until_da1, heq, List.nil_append]
  refine ⟨ht ▸ hpre, ?_, ?_⟩
  · rcases hdisj with h | h
    · exact Or.inl (by rw [ht, h])
    · refine Or.inr ?_
      rw [ht]
      exact (da1Stop_iff t).mp h
  · intro n hn
    cases n with
    | zero =>
      intro hd
      rw [List.take_zero] at hd
      obtain ⟨hlast, -⟩ := hd
      simp at hlast
    | succ m =>
      intro hd
      have hlt : m + 1 < t.length := by rw [ht] at hn; exact hn
      have hfalse := hmin (m + 1) (Nat.succ_pos m) hlt
      rw [List.nil_append] at hfalse
      have htrue := (da1Stop_iff (input.take (m + 1))).mpr hd
      rw [hfalse] at htrue
      exact absurd htrue Bool.false_ne_true

/-- Witness for C7: on the stream `"\x1b[?6c"` no strict prefix satisfies
the stop condition. -/
theorem c7_witness : ¬ Da1Spec ([27, 91, 63, 54, 99].take 3) :=
  (c7_read_until_da1_stops [27, 91, 63, 54, 99]).2.2 3 (by decide)

/-- C8: `read_until_dsr` always returns (a prefix of the available input,
never an error): it stops exactly at the first accumulated prefix ending
with `ESC[0n` or `ESC[3n`, and returns everything accumulated when no such
prefix arrives (timeout, I/O failure, EOF). -/
theorem c8_read_until_dsr_stops :
    ∀ input : List Nat,
      read_until_dsr input <+: input ∧
      (read_until_dsr input = input ∨ DsrSpec (read_until_dsr input)) ∧
      (∀ n, n < (read_until_dsr input).length → ¬ DsrSpec (input.take n)) := by
  intro input
  obtain ⟨t, heq, hpre, hdisj, hmin⟩ := readLoop_spec dsrStop input []
  have ht : read_until_dsr input = t := by
    rw [read_until_dsr, heq, List.nil_append]
  refine ⟨ht ▸ hpre, ?_, ?_⟩
  · rcases hdisj with h | h
    · exact Or.inl (by rw [ht, h])
    · refine Or.inr ?_
      rw [ht]
      exact (dsrStop_iff t).mp h
  · intro n hn
    cases n with
    | zero =>
      intro hd
      rw [List.take_zero] at hd
      rcases hd with h | h
      · simpa [dsrE0] using List.suffix_nil.mp h
      · simpa [dsrE3] using List.suffix_nil.mp h
    | succ m =>
      intro hd
      have hlt : m + 1 < t.length := by rw [ht] at hn; exact hn
      have hfalse := hmin (m + 1) (Nat.succ_pos m) hlt
      rw [List.nil_append] at hfalse
      have htrue := (dsrStop_iff (input.take (m + 1))).mpr hd
      rw [hfalse] at htrue
      exact absurd htrue Bool.false_ne_true

/-- Witness for C8: on the stream `"\x1b[0n"` no strict prefix satisfies
the stop condition. -/
theorem c8_witness : ¬ DsrSpec ([27, 91, 48, 110].take 2) :=
  (c8_read_until_dsr_stops [27, 91, 48, 110]).2.2 2 (by decide)

/-- C9: whenever raw mode was successfully enabled, every exit path of
`detect` — error return, panic, or `Ok` return — emits the scope guard's
raw-mode-disable event. -/
theorem c9_raw_mode_restored :
    ∀ (raw write drain : Bool) (env : Option Nat) (csi : List Nat → Option Nat)
      (input : List Nat),
      raw = true → Ev.rawDisable ∈ (detectFull raw write drain env csi input).1 := by
  intro raw write drain env csi input hraw
  subst hraw
  cases write
  · simp [detectFull]
  · cases drain
    · simp [detectFull]
    · cases hl : light_bg (read_until_da1 input) <;> simp [detectFull, hl]

/-- Witness for C9 at an all-success run on the empty stream. -/
theorem c9_witness : Ev.rawDisable ∈ (detectFull true true true none csiNone []).1 :=
  c9_raw_mode_restored true true true none csiNone [] rfl

/-- C10: code-bug evidence — `light_bg` is not total: on the response
`"]11;rgb:€€€€€"` (five 3-byte characters after the marker) the slice
`&s[0..2]` ends inside the first character and the function panics. -/
theorem c10_light_bg_panics : light_bg c10buf = LightResult.panic := by decide

end Yazi
